import Mathlib

/-
Shallow embedding of the advanced-vector repository
(src/advanced-vector/vector.h): a generic dynamic array `Vector<T>`
built on a raw storage block `RawMemory<T>`.

Modelling conventions:
- A `Vector` state is the list of live, constructed elements together
  with the capacity of the owned raw block.  `size_` in the source is
  `elems.length` here.
- Machine pointers `begin() + shift` are modelled as the natural-number
  offset `shift` from the start of the buffer.
- Move construction / move assignment of an element is modelled as a
  value copy (a moved-from slot that is immediately destroyed keeps its
  old value in the model; its contents never reach the live range).
- Debug assertions (`assert`) appear as explicit guards: for the
  `RawMemory` operators they are modelled by `Option` results (a failed
  assertion yields `none`), for the `Vector` operations they become
  hypotheses of the theorems, matching the release-build contract.
-/

namespace AdvancedVector

/-- Raw storage block: owns a buffer of `capacity` element-sized slots.
Only the capacity is relevant to its assertion behaviour; the buffer
address is abstracted away. -/
structure RawMemory where
  capacity : Nat

/-- Address-plus-offset, `RawMemory::operator+`: `assert(offset <= capacity_)`,
then returns `buffer_ + offset`.  The returned address is modelled by the
offset itself; a failed assertion is `none`. -/
def RawMemory.opAdd (m : RawMemory) (offset : Nat) : Option Nat :=
  if offset ≤ m.capacity then some offset else none

/-- Index access, `RawMemory::operator[]`: `assert(index < capacity_)`,
then returns `buffer_[index]`.  The accessed slot is modelled by its
index; a failed assertion is `none`. -/
def RawMemory.opIndex (m : RawMemory) (index : Nat) : Option Nat :=
  if index < m.capacity then some index else none

/-- Dynamic array state: the live elements in order plus the capacity of
the owned `RawMemory` block (`data_.Capacity()`). -/
structure Vector (T : Type) where
  elems : List T
  cap : Nat
  deriving DecidableEq

variable {T : Type}

/-- Source `Vector::Size`: the count `size_` of live elements. -/
def Vector.Size (v : Vector T) : Nat :=
  v.elems.length

/-- Source `Vector::Capacity`: capacity of the owned block. -/
def Vector.Capacity (v : Vector T) : Nat :=
  v.cap

/-- The core invariant stated by the spec: `0 <= length <= capacity`. -/
def Vector.SizeLeCap (v : Vector T) : Prop :=
  v.Size ≤ v.Capacity

instance (v : Vector T) : Decidable v.SizeLeCap := by
  unfold Vector.SizeLeCap; infer_instance

/-- Default constructor: `size_ = 0`, default `RawMemory` (capacity 0). -/
def defaultVector (T : Type) : Vector T :=
  { elems := [], cap := 0 }

/-- Sized constructor `Vector(size_t size)`: allocates capacity `size`
and value-constructs `size` elements. -/
def sizedVector (T : Type) [Inhabited T] (size : Nat) : Vector T :=
  { elems := List.replicate size default, cap := size }

/-- Copy constructor `Vector(const Vector&)`: allocates capacity
`other.size_` and copy-constructs the `other.size_` live elements. -/
def Vector.copyCtor (other : Vector T) : Vector T :=
  { elems := other.elems, cap := other.Size }

/-- Move constructor `Vector(Vector&&)`: steals the block and size;
returns (new vector, moved-from source).  The source is left with a
null, zero-capacity block and `size_ = 0`. -/
def Vector.moveCtor (other : Vector T) : Vector T × Vector T :=
  ({ elems := other.elems, cap := other.cap }, { elems := [], cap := 0 })

/-- Source `Vector::Swap`: exchanges the blocks and sizes of the two vectors. -/
def Vector.Swap (v other : Vector T) : Vector T × Vector T :=
  (other, v)

/-- Source `Vector::Reserve(new_capacity)`: no-op when
`new_capacity <= data_.Capacity()`; otherwise allocates a block of
exactly `new_capacity`, transfers the live elements (move or copy per
the transfer policy; identical on values here) and adopts the block. -/
def Vector.Reserve (v : Vector T) (new_capacity : Nat) : Vector T :=
  if new_capacity ≤ v.Capacity then v
  else { elems := v.elems, cap := new_capacity }

/-- Source `Vector::Resize(new_size)`: shrinking destroys the tail
`[new_size, size_)`; growing first reserves
`max(data_.Capacity() * 2, new_size)` when `new_size > Capacity()`, then
value-constructs elements `[size_, new_size)`; finally `size_ = new_size`. -/
def Vector.Resize [Inhabited T] (v : Vector T) (new_size : Nat) : Vector T :=
  if new_size < v.Size then
    { elems := v.elems.take new_size, cap := v.cap }
  else
    let v1 := if new_size > v.Capacity
      then v.Reserve (max (v.Capacity * 2) new_size) else v
    { elems := v1.elems ++ List.replicate (new_size - v1.Size) default,
      cap := v1.cap }

/-- Source `Vector::PushBack(const T&)`: on `size_ == Capacity()` allocates a
block of `size_ == 0 ? 1 : size_ * 2`, copy-constructs the value into
slot `size_`, transfers the old elements into slots `[0, size_)`, and
swaps the blocks; otherwise copy-constructs the value in slot `size_`.
Then `++size_`. -/
def Vector.PushBack (v : Vector T) (value : T) : Vector T :=
  if v.Size = v.Capacity then
    { elems := v.elems ++ [value],
      cap := if v.Size = 0 then 1 else v.Size * 2 }
  else
    { elems := v.elems ++ [value], cap := v.cap }

/-- Source `Vector::PushBack(T&&)`: identical to the copying overload except the
value is move-constructed into slot `size_` (a value copy here). -/
def Vector.PushBackMove (v : Vector T) (value : T) : Vector T :=
  if v.Size = v.Capacity then
    { elems := v.elems ++ [value],
      cap := if v.Size = 0 then 1 else v.Size * 2 }
  else
    { elems := v.elems ++ [value], cap := v.cap }

/-- Source `Vector::EmplaceBack(Args&&...)`: same state transition as PushBack
with the element constructed from `args` (a pre-built value here);
returns a reference to the new element, modelled by its slot index
`size_` (the index in the resulting buffer, old or new). -/
def Vector.EmplaceBack (v : Vector T) (value : T) : Vector T × Nat :=
  if v.Size = v.Capacity then
    ({ elems := v.elems ++ [value],
       cap := if v.Size = 0 then 1 else v.Size * 2 }, v.Size)
  else
    ({ elems := v.elems ++ [value], cap := v.cap }, v.Size)

/-- Source `Vector::PopBack`: when `size_ > 0`, destroys the element in slot
`size_ - 1` and decrements `size_`; otherwise does nothing. -/
def Vector.PopBack (v : Vector T) : Vector T :=
  if v.Size > 0 then { elems := v.elems.dropLast, cap := v.cap } else v

/-- Source `Vector::Emplace(pos, args...)` with `shift = pos - begin()`.
Growth branch (`size_ == Capacity()`): constructs the value in slot
`shift` of a fresh block of `size_ == 0 ? 1 : size_ * 2` slots,
transfers old elements `[0, shift)` in place and `[shift, size_)` one
slot right, swaps blocks.  In-place branch: when `size_ != 0`,
move-constructs the last element into slot `size_`, shifts
`[shift, size_)` one slot right by backward move-assignment, destroys
the vacated slot `shift`, and constructs the value there.  Both
branches leave `take shift ++ [value] ++ drop shift` live and return
the slot index `shift`; then `++size_`. -/
def Vector.Emplace (v : Vector T) (shift : Nat) (value : T) :
    Vector T × Nat :=
  if v.Size = v.Capacity then
    ({ elems := v.elems.take shift ++ [value] ++ v.elems.drop shift,
       cap := if v.Size = 0 then 1 else v.Size * 2 }, shift)
  else
    ({ elems := v.elems.take shift ++ [value] ++ v.elems.drop shift,
       cap := v.cap }, shift)

/-- Source `Vector::Insert(pos, const T&)`: delegates to `Emplace(pos, value)`. -/
def Vector.Insert (v : Vector T) (shift : Nat) (value : T) :
    Vector T × Nat :=
  v.Emplace shift value

/-- Source `Vector::Insert(pos, T&&)`: delegates to `Emplace(pos, move(value))`. -/
def Vector.InsertMove (v : Vector T) (shift : Nat) (value : T) :
    Vector T × Nat :=
  v.Emplace shift value

/-- Source `Vector::Erase(pos)` with `shift = pos - begin()`:
`std::move(begin() + shift + 1, end(), begin() + shift)` shifts the tail
one slot left (the last slot keeps its moved-from value, modelled as the
old last element), then `PopBack()` destroys that slot; returns
`begin() + shift`, modelled as the slot index `shift`. -/
def Vector.Erase (v : Vector T) (shift : Nat) : Vector T × Nat :=
  let afterMove : Vector T :=
    { elems := v.elems.take shift ++ v.elems.drop (shift + 1)
        ++ v.elems.drop (v.Size - 1),
      cap := v.cap }
  (afterMove.PopBack, shift)

/-- Body of the copy-assignment `operator=` for `this != &other`.
If `other.size_ <= data_.Capacity()`: when `size_ <= other.size_`,
copy-assigns the first `size_` elements and copy-constructs the
remaining `other.size_ - size_`; otherwise copy-assigns the first
`other.size_` elements and destroys the trailing `size_ - other.size_`;
`size_ = other.size_` and the block is kept.  Otherwise builds
`Vector other_copy(other)` and swaps with it. -/
def Vector.assignCopyBody (v other : Vector T) : Vector T :=
  if other.Size ≤ v.Capacity then
    if v.Size ≤ other.Size then
      { elems := other.elems.take v.Size
          ++ (other.elems.drop v.Size).take (other.Size - v.Size),
        cap := v.cap }
    else
      { elems := other.elems.take other.Size, cap := v.cap }
  else
    Vector.copyCtor other

/-- Copy-assignment `operator=(const Vector&)`: the `this != &other`
pointer check is modelled by the `isSelf` flag; on self-assignment the
body is skipped and the vector is returned unchanged. -/
def Vector.opAssignCopy (isSelf : Bool) (v other : Vector T) : Vector T :=
  if isSelf then v else v.assignCopyBody other

/-- Move-assignment `operator=(Vector&&)`: `Swap(other)`; returns
(this after, other after). -/
def Vector.opAssignMove (v other : Vector T) : Vector T × Vector T :=
  v.Swap other

/-- States reachable from the constructors by the public operations of
`Vector`.  Operations carrying a debug assertion (`Emplace`, `Insert`,
`Erase`) appear with the asserted precondition; the copy-assignment
constructor covers both sides of the `this != &other` check. -/
inductive Reachable {T : Type} [Inhabited T] : Vector T → Prop where
  | init : Reachable (defaultVector T)
  | sized (n : Nat) : Reachable (sizedVector T n)
  | copyC {v : Vector T} : Reachable v → Reachable v.copyCtor
  | moveNew {v : Vector T} : Reachable v → Reachable v.moveCtor.1
  | moveSrc {v : Vector T} : Reachable v → Reachable v.moveCtor.2
  | push {v : Vector T} (x : T) : Reachable v → Reachable (v.PushBack x)
  | pushMove {v : Vector T} (x : T) : Reachable v →
      Reachable (v.PushBackMove x)
  | emplB {v : Vector T} (x : T) : Reachable v →
      Reachable (v.EmplaceBack x).1
  | pop {v : Vector T} : Reachable v → Reachable v.PopBack
  | reserve {v : Vector T} (n : Nat) : Reachable v → Reachable (v.Reserve n)
  | resize {v : Vector T} (n : Nat) : Reachable v → Reachable (v.Resize n)
  | empl {v : Vector T} (i : Nat) (x : T) : i ≤ v.Size → Reachable v →
      Reachable (v.Emplace i x).1
  | ins {v : Vector T} (i : Nat) (x : T) : i ≤ v.Size → Reachable v →
      Reachable (v.Insert i x).1
  | insMove {v : Vector T} (i : Nat) (x : T) : i ≤ v.Size → Reachable v →
      Reachable (v.InsertMove i x).1
  | erase {v : Vector T} (i : Nat) : i < v.Size → Reachable v →
      Reachable (v.Erase i).1
  | asgnCopy {v w : Vector T} (isSelf : Bool) : Reachable v → Reachable w →
      Reachable (Vector.opAssignCopy isSelf v w)
  | asgnMoveL {v w : Vector T} : Reachable v → Reachable w →
      Reachable (v.opAssignMove w).1
  | asgnMoveR {v w : Vector T} : Reachable v → Reachable w →
      Reachable (v.opAssignMove w).2
  | swapL {v w : Vector T} : Reachable v → Reachable w →
      Reachable (v.Swap w).1
  | swapR {v w : Vector T} : Reachable v → Reachable w →
      Reachable (v.Swap w).2

/-- Both branches of `Emplace` leave the same live sequence. -/
lemma emplace_fst_elems (v : Vector T) (i : Nat) (x : T) :
    (v.Emplace i x).1.elems = v.elems.take i ++ [x] ++ v.elems.drop i := by
  unfold Vector.Emplace
  split <;> rfl

lemma take_len (l : List T) (i : Nat) (hi : i ≤ l.length) :
    (List.take i l).length = i := by
  rw [List.length_take]
  omega

lemma ins_length (l : List T) (i : Nat) (x : T) :
    (l.take i ++ [x] ++ l.drop i).length = l.length + 1 := by
  simp [List.length_take, List.length_drop]
  omega

lemma ins_get_lt (l : List T) (i : Nat) (x : T) (j : Nat) (hj : j < i)
    (hi : i ≤ l.length) :
    (l.take i ++ [x] ++ l.drop i)[j]? = l[j]? := by
  rw [List.append_assoc, List.getElem?_append, take_len l i hi, if_pos hj,
    List.getElem?_take, if_pos hj]

lemma ins_get_eq (l : List T) (i : Nat) (x : T) (hi : i ≤ l.length) :
    (l.take i ++ [x] ++ l.drop i)[i]? = some x := by
  rw [List.append_assoc, List.getElem?_append, take_len l i hi,
    if_neg (Nat.lt_irrefl i), Nat.sub_self, List.singleton_append,
    List.getElem?_cons_zero]

lemma ins_get_gt (l : List T) (i : Nat) (x : T) (j : Nat) (hij : i ≤ j)
    (hj : j < l.length) :
    (l.take i ++ [x] ++ l.drop i)[j + 1]? = l[j]? := by
  have hi : i ≤ l.length := by omega
  have hni : ¬ (j + 1 < i) := by omega
  have h1 : j + 1 - i = (j - i) + 1 := by omega
  rw [List.append_assoc, List.getElem?_append, take_len l i hi, if_neg hni, h1,
    List.singleton_append, List.getElem?_cons_succ, List.getElem?_drop]
  congr 1
  omega

lemma append_get_lt (l : List T) (x : T) (j : Nat) (hj : j < l.length) :
    (l ++ [x])[j]? = l[j]? := by
  rw [List.getElem?_append, if_pos hj]

/-- All three append operations put the value in slot `size_`. -/
lemma pushBack_elems (v : Vector T) (x : T) :
    (v.PushBack x).elems = v.elems ++ [x] := by
  unfold Vector.PushBack
  split <;> rfl

lemma pushBackMove_elems (v : Vector T) (x : T) :
    (v.PushBackMove x).elems = v.elems ++ [x] := by
  unfold Vector.PushBackMove
  split <;> rfl

lemma emplaceBack_fst_elems (v : Vector T) (x : T) :
    (v.EmplaceBack x).1.elems = v.elems ++ [x] := by
  unfold Vector.EmplaceBack
  split <;> rfl

/-- The grown capacity `size_ == 0 ? 1 : size_ * 2` equals
`max(1, 2 * capacity)` when `size_ == capacity`. -/
lemma growCap_eq (s c : Nat) (h : s = c) :
    (if s = 0 then 1 else s * 2) = max 1 (2 * c) := by
  split <;> omega

lemma singleton_of_length_one (l : List T) (h : l.length = 1) :
    ∃ z, l = [z] := by
  cases l with
  | nil => simp at h
  | cons a t =>
    cases t with
    | nil => exact ⟨a, rfl⟩
    | cons b t2 => simp at h

lemma erase_fst (v : Vector T) (i : Nat) (hi : i < v.Size) :
    (v.Erase i).1 = ⟨v.elems.take i ++ v.elems.drop (i + 1), v.cap⟩ := by
  obtain ⟨z, hz⟩ : ∃ z, v.elems.drop (v.elems.length - 1) = [z] := by
    apply singleton_of_length_one
    rw [List.length_drop]
    unfold Vector.Size at hi
    omega
  unfold Vector.Erase
  simp only [Vector.PopBack, Vector.Size, hz]
  have hpos : (List.take i v.elems ++ List.drop (i + 1) v.elems ++ [z]).length > 0 := by
    simp
  rw [if_pos hpos, List.dropLast_concat]

lemma del_length (l : List T) (i : Nat) (hi : i < l.length) :
    (l.take i ++ l.drop (i + 1)).length = l.length - 1 := by
  simp [List.length_take, List.length_drop]
  omega

lemma del_get_lt (l : List T) (i j : Nat) (hj : j < i) (hi : i ≤ l.length) :
    (l.take i ++ l.drop (i + 1))[j]? = l[j]? := by
  rw [List.getElem?_append, take_len l i hi, if_pos hj, List.getElem?_take,
    if_pos hj]

lemma del_get_ge (l : List T) (i j : Nat) (hij : i ≤ j) (hj : j < l.length - 1) :
    (l.take i ++ l.drop (i + 1))[j]? = l[j + 1]? := by
  have hi : i ≤ l.length := by omega
  have hni : ¬ (j < i) := by omega
  rw [List.getElem?_append, take_len l i hi, if_neg hni, List.getElem?_drop]
  congr 1
  omega

lemma append_any_get_lt (l l2 : List T) (j : Nat) (hj : j < l.length) :
    (l ++ l2)[j]? = l[j]? := by
  rw [List.getElem?_append, if_pos hj]

lemma resize_shrink [Inhabited T] (v : Vector T) (n : Nat) (hn : n < v.Size) :
    v.Resize n = ⟨v.elems.take n, v.cap⟩ := by
  unfold Vector.Resize
  rw [if_pos hn]

lemma resize_grow [Inhabited T] (v : Vector T) (n : Nat) (hn : ¬ n < v.Size)
    (hc : v.Capacity < n) :
    v.Resize n = ⟨v.elems ++ List.replicate (n - v.Size) default,
      max (v.Capacity * 2) n⟩ := by
  unfold Vector.Resize Vector.Reserve
  have hmax : ¬ (max (v.Capacity * 2) n ≤ v.Capacity) := by omega
  rw [if_neg hn, if_pos (show n > v.Capacity from hc), if_neg hmax]
  rfl

lemma resize_grow_within [Inhabited T] (v : Vector T) (n : Nat)
    (hn : ¬ n < v.Size) (hc : ¬ v.Capacity < n) :
    v.Resize n = ⟨v.elems ++ List.replicate (n - v.Size) default, v.cap⟩ := by
  unfold Vector.Resize
  rw [if_neg hn, if_neg (show ¬ n > v.Capacity from hc)]

lemma pushBack_eq (v : Vector T) (x : T) :
    v.PushBack x = ⟨v.elems ++ [x],
      if v.Size = v.Capacity then (if v.Size = 0 then 1 else v.Size * 2)
      else v.cap⟩ := by
  unfold Vector.PushBack
  split
  · rfl
  · rfl

lemma pushBackMove_eq (v : Vector T) (x : T) :
    v.PushBackMove x = ⟨v.elems ++ [x],
      if v.Size = v.Capacity then (if v.Size = 0 then 1 else v.Size * 2)
      else v.cap⟩ := by
  unfold Vector.PushBackMove
  split
  · rfl
  · rfl

lemma emplaceBack_fst_eq (v : Vector T) (x : T) :
    (v.EmplaceBack x).1 = ⟨v.elems ++ [x],
      if v.Size = v.Capacity then (if v.Size = 0 then 1 else v.Size * 2)
      else v.cap⟩ := by
  unfold Vector.EmplaceBack
  split
  · rfl
  · rfl

lemma emplace_fst_eq (v : Vector T) (i : Nat) (x : T) :
    (v.Emplace i x).1 = ⟨v.elems.take i ++ [x] ++ v.elems.drop i,
      if v.Size = v.Capacity then (if v.Size = 0 then 1 else v.Size * 2)
      else v.cap⟩ := by
  unfold Vector.Emplace
  split
  · rfl
  · rfl

lemma inv_push (v : Vector T) (x : T) (h : v.SizeLeCap) :
    (v.PushBack x).SizeLeCap := by
  rw [pushBack_eq]
  unfold Vector.SizeLeCap Vector.Size Vector.Capacity at *
  simp only [List.length_append, List.length_cons, List.length_nil]
  split
  · split <;> omega
  · omega

lemma inv_pushMove (v : Vector T) (x : T) (h : v.SizeLeCap) :
    (v.PushBackMove x).SizeLeCap := by
  rw [pushBackMove_eq]
  unfold Vector.SizeLeCap Vector.Size Vector.Capacity at *
  simp only [List.length_append, List.length_cons, List.length_nil]
  split
  · split <;> omega
  · omega

lemma inv_emplB (v : Vector T) (x : T) (h : v.SizeLeCap) :
    (v.EmplaceBack x).1.SizeLeCap := by
  rw [emplaceBack_fst_eq]
  unfold Vector.SizeLeCap Vector.Size Vector.Capacity at *
  simp only [List.length_append, List.length_cons, List.length_nil]
  split
  · split <;> omega
  · omega

lemma inv_pop (v : Vector T) (h : v.SizeLeCap) : v.PopBack.SizeLeCap := by
  unfold Vector.PopBack
  split
  · show v.elems.dropLast.length ≤ v.cap
    rw [List.length_dropLast]
    unfold Vector.SizeLeCap Vector.Size Vector.Capacity at h
    omega
  · exact h

lemma inv_reserve (v : Vector T) (n : Nat) (h : v.SizeLeCap) :
    (v.Reserve n).SizeLeCap := by
  unfold Vector.Reserve
  split
  · exact h
  next hn =>
    show v.elems.length ≤ n
    unfold Vector.Capacity at hn
    unfold Vector.SizeLeCap Vector.Size Vector.Capacity at h
    omega

lemma inv_resize [Inhabited T] (v : Vector T) (n : Nat) (h : v.SizeLeCap) :
    (v.Resize n).SizeLeCap := by
  have h2 : v.elems.length ≤ v.cap := h
  have h3 : v.Capacity = v.cap := rfl
  have h4 : v.Size = v.elems.length := rfl
  by_cases hn : n < v.Size
  · rw [resize_shrink v n hn]
    rw [h4] at hn
    show (v.elems.take n).length ≤ v.cap
    rw [List.length_take]
    omega
  · rw [h4] at hn
    by_cases hc : v.Capacity < n
    · rw [resize_grow v n (by rw [h4]; exact hn) hc]
      rw [h3] at hc
      show (v.elems ++ List.replicate (n - v.Size) default).length
          ≤ max (v.Capacity * 2) n
      rw [List.length_append, List.length_replicate, h4, h3]
      omega
    · rw [resize_grow_within v n (by rw [h4]; exact hn) hc]
      rw [h3] at hc
      show (v.elems ++ List.replicate (n - v.Size) default).length ≤ v.cap
      rw [List.length_append, List.length_replicate, h4]
      omega
lemma inv_emplace (v : Vector T) (i : Nat) (x : T) (h : v.SizeLeCap) :
    (v.Emplace i x).1.SizeLeCap := by
  rw [emplace_fst_eq]
  unfold Vector.SizeLeCap Vector.Size Vector.Capacity at *
  simp only [List.length_append, List.length_take, List.length_drop,
    List.length_cons, List.length_nil]
  split
  · split <;> omega
  · omega

lemma inv_erase (v : Vector T) (i : Nat) (hi : i < v.Size) (h : v.SizeLeCap) :
    (v.Erase i).1.SizeLeCap := by
  rw [erase_fst v i hi]
  unfold Vector.SizeLeCap Vector.Size Vector.Capacity at *
  simp [List.length_take, List.length_drop]
  omega

lemma inv_asgnCopy (v w : Vector T) (b : Bool) (h : v.SizeLeCap) :
    (Vector.opAssignCopy b v w).SizeLeCap := by
  have hs : v.Size = v.elems.length := rfl
  have hw : w.Size = w.elems.length := rfl
  unfold Vector.opAssignCopy
  split
  · exact h
  · unfold Vector.assignCopyBody
    split
    next hfit =>
      have hfit2 : w.elems.length ≤ v.cap := hfit
      split
      next hab =>
        have hab2 : v.elems.length ≤ w.elems.length := hab
        show (w.elems.take v.Size
            ++ (w.elems.drop v.Size).take (w.Size - v.Size)).length ≤ v.cap
        rw [List.length_append, List.length_take, List.length_take,
          List.length_drop, hs, hw]
        omega
      next hab =>
        show (w.elems.take w.Size).length ≤ v.cap
        rw [List.length_take, hw]
        omega
    next hfit =>
      show w.elems.length ≤ w.Size
      exact Nat.le_of_eq hw.symm

lemma inv_copyCtor (v : Vector T) : v.copyCtor.SizeLeCap := by
  unfold Vector.copyCtor Vector.SizeLeCap Vector.Size Vector.Capacity
  simp

lemma inv_sized [Inhabited T] (n : Nat) : (sizedVector T n).SizeLeCap := by
  unfold sizedVector Vector.SizeLeCap Vector.Size Vector.Capacity
  simp

/-- Invariant preservation for every state produced by the reachable-state
relation. -/
lemma inv_reachable {T : Type} [Inhabited T] {v : Vector T}
    (h : Reachable v) : v.SizeLeCap := by
  induction h with
  | init =>
    unfold defaultVector Vector.SizeLeCap Vector.Size Vector.Capacity
    simp
  | sized n => exact inv_sized n
  | copyC _ => exact inv_copyCtor _
  | moveNew _ ih => exact ih
  | moveSrc _ =>
    unfold Vector.moveCtor Vector.SizeLeCap Vector.Size Vector.Capacity
    simp
  | push x _ ih => exact inv_push _ x ih
  | pushMove x _ ih => exact inv_pushMove _ x ih
  | emplB x _ ih => exact inv_emplB _ x ih
  | pop _ ih => exact inv_pop _ ih
  | reserve n _ ih => exact inv_reserve _ n ih
  | resize n _ ih => exact inv_resize _ n ih
  | empl i x hix _ ih => exact inv_emplace _ i x ih
  | ins i x hix _ ih => exact inv_emplace _ i x ih
  | insMove i x hix _ ih => exact inv_emplace _ i x ih
  | erase i hix _ ih => exact inv_erase _ i hix ih
  | asgnCopy b _ _ ihv ihw => exact inv_asgnCopy _ _ b ihv
  | asgnMoveL _ _ ihv ihw => exact ihw
  | asgnMoveR _ _ ihv ihw => exact ihv
  | swapL _ _ ihv ihw => exact ihw
  | swapR _ _ ihv ihw => exact ihv

/-- C1: Insert/Emplace of a value at offset `i` of an `n`-element vector
yields `n + 1` elements with `[0, i)` unchanged, the new value at `i`,
and the old elements `[i, n)` shifted to `(i, n]`; both `Insert`
overloads delegate to `Emplace`, and the statement covers the growth
(`size_ == Capacity()`) and in-place branches alike. -/
theorem C1_insert_preserves_order {T : Type} (v : Vector T) (i : Nat)
    (x : T) (hi : i ≤ v.Size) :
    v.Insert i x = v.Emplace i x ∧
    v.InsertMove i x = v.Emplace i x ∧
    (v.Emplace i x).1.Size = v.Size + 1 ∧
    (∀ j, j < i → (v.Emplace i x).1.elems[j]? = v.elems[j]?) ∧
    (v.Emplace i x).1.elems[i]? = some x ∧
    (∀ j, i ≤ j → j < v.Size → (v.Emplace i x).1.elems[j + 1]? = v.elems[j]?) := by
  refine ⟨rfl, rfl, ?_, ?_, ?_, ?_⟩
  · show (v.Emplace i x).1.elems.length = v.elems.length + 1
    rw [emplace_fst_elems]
    exact ins_length v.elems i x
  · intro j hj
    rw [emplace_fst_elems]
    exact ins_get_lt v.elems i x j hj hi
  · rw [emplace_fst_elems]
    exact ins_get_eq v.elems i x hi
  · intro j hij hj
    rw [emplace_fst_elems]
    exact ins_get_gt v.elems i x j hij hj

/-- Witness for C1 at the vector `[5, 6, 7]` (full, so growth fires),
inserting `9` at offset `1`. -/
theorem C1_witness :
    1 ≤ (⟨[5, 6, 7], 3⟩ : Vector Nat).Size ∧
    ((⟨[5, 6, 7], 3⟩ : Vector Nat).Emplace 1 9).1.Size =
      (⟨[5, 6, 7], 3⟩ : Vector Nat).Size + 1 ∧
    ((⟨[5, 6, 7], 3⟩ : Vector Nat).Emplace 1 9).1.elems[0]? =
      (⟨[5, 6, 7], 3⟩ : Vector Nat).elems[0]? ∧
    ((⟨[5, 6, 7], 3⟩ : Vector Nat).Emplace 1 9).1.elems[1]? = some 9 ∧
    ((⟨[5, 6, 7], 3⟩ : Vector Nat).Emplace 1 9).1.elems[3]? =
      (⟨[5, 6, 7], 3⟩ : Vector Nat).elems[2]? :=
  ⟨by decide,
   (C1_insert_preserves_order ⟨[5, 6, 7], 3⟩ 1 9 (by decide)).2.2.1,
   (C1_insert_preserves_order ⟨[5, 6, 7], 3⟩ 1 9 (by decide)).2.2.2.1 0 (by decide),
   (C1_insert_preserves_order ⟨[5, 6, 7], 3⟩ 1 9 (by decide)).2.2.2.2.1,
   (C1_insert_preserves_order ⟨[5, 6, 7], 3⟩ 1 9 (by decide)).2.2.2.2.2 2 (by decide) (by decide)⟩

/-- C2: appending to a full vector (`size_ == Capacity()`) by either
`PushBack` overload or by `EmplaceBack` grows the capacity to
`max(1, 2 * old_capacity)`, increments the length, and keeps all old
elements at their positions `[0, old_length)`. -/
theorem C2_append_growth {T : Type} (v : Vector T) (x : T)
    (h : v.Size = v.Capacity) :
    ((v.PushBack x).Capacity = max 1 (2 * v.Capacity) ∧
     (v.PushBack x).Size = v.Size + 1 ∧
     (∀ j, j < v.Size → (v.PushBack x).elems[j]? = v.elems[j]?)) ∧
    ((v.PushBackMove x).Capacity = max 1 (2 * v.Capacity) ∧
     (v.PushBackMove x).Size = v.Size + 1 ∧
     (∀ j, j < v.Size → (v.PushBackMove x).elems[j]? = v.elems[j]?)) ∧
    ((v.EmplaceBack x).1.Capacity = max 1 (2 * v.Capacity) ∧
     (v.EmplaceBack x).1.Size = v.Size + 1 ∧
     (∀ j, j < v.Size → (v.EmplaceBack x).1.elems[j]? = v.elems[j]?)) := by
  refine ⟨⟨?_, ?_, ?_⟩, ⟨?_, ?_, ?_⟩, ⟨?_, ?_, ?_⟩⟩
  · unfold Vector.PushBack
    rw [if_pos h]
    show (if v.Size = 0 then 1 else v.Size * 2) = max 1 (2 * v.Capacity)
    exact growCap_eq _ _ h
  · show (v.PushBack x).elems.length = v.elems.length + 1
    rw [pushBack_elems]
    simp
  · intro j hj
    rw [pushBack_elems]
    exact append_get_lt v.elems x j hj
  · unfold Vector.PushBackMove
    rw [if_pos h]
    show (if v.Size = 0 then 1 else v.Size * 2) = max 1 (2 * v.Capacity)
    exact growCap_eq _ _ h
  · show (v.PushBackMove x).elems.length = v.elems.length + 1
    rw [pushBackMove_elems]
    simp
  · intro j hj
    rw [pushBackMove_elems]
    exact append_get_lt v.elems x j hj
  · unfold Vector.EmplaceBack
    rw [if_pos h]
    show (if v.Size = 0 then 1 else v.Size * 2) = max 1 (2 * v.Capacity)
    exact growCap_eq _ _ h
  · show (v.EmplaceBack x).1.elems.length = v.elems.length + 1
    rw [emplaceBack_fst_elems]
    simp
  · intro j hj
    rw [emplaceBack_fst_elems]
    exact append_get_lt v.elems x j hj

/-- Witness for C2 on the full vector `[4, 5]` (size 2 = capacity 2):
the new capacity is `max(1, 4) = 4` and the old elements stay put. -/
theorem C2_witness :
    (⟨[4, 5], 2⟩ : Vector Nat).Size = (⟨[4, 5], 2⟩ : Vector Nat).Capacity ∧
    ((⟨[4, 5], 2⟩ : Vector Nat).PushBack 6).Capacity =
      max 1 (2 * (⟨[4, 5], 2⟩ : Vector Nat).Capacity) ∧
    ((⟨[4, 5], 2⟩ : Vector Nat).PushBack 6).Size =
      (⟨[4, 5], 2⟩ : Vector Nat).Size + 1 ∧
    ((⟨[4, 5], 2⟩ : Vector Nat).EmplaceBack 6).1.elems[1]? =
      (⟨[4, 5], 2⟩ : Vector Nat).elems[1]? :=
  ⟨by decide,
   (C2_append_growth ⟨[4, 5], 2⟩ 6 (by decide)).1.1,
   (C2_append_growth ⟨[4, 5], 2⟩ 6 (by decide)).1.2.1,
   (C2_append_growth ⟨[4, 5], 2⟩ 6 (by decide)).2.2.2.2 1 (by decide)⟩

/-- C3: `0 <= length <= capacity` holds in every state reachable from
the constructors through the public operations, as captured by the
`Reachable` relation. -/
theorem C3_length_le_capacity_invariant {T : Type} [Inhabited T]
    (v : Vector T) (h : Reachable v) : 0 ≤ v.Size ∧ v.SizeLeCap :=
  ⟨Nat.zero_le _, inv_reachable h⟩

/-- Witness for C3 on a concrete reachable state: push then resize from
the default-constructed vector. -/
theorem C3_witness :
    0 ≤ (((defaultVector Nat).PushBack 1).Resize 5).Size ∧
    (((defaultVector Nat).PushBack 1).Resize 5).SizeLeCap :=
  C3_length_le_capacity_invariant _
    (Reachable.resize 5 (Reachable.push 1 Reachable.init))

/-- C4: copy assignment between distinct vectors when the source length
fits the destination capacity rewrites the destination in place: same
length and elements as the source, capacity untouched; the source is a
const reference and is never written (inherent in the functional model);
self copy-assignment (the `this == &other` branch) changes nothing. -/
theorem C4_copy_assignment_fits {T : Type} (a b : Vector T)
    (h : b.Size ≤ a.Capacity) :
    (Vector.opAssignCopy false a b).Size = b.Size ∧
    (Vector.opAssignCopy false a b).elems = b.elems ∧
    (Vector.opAssignCopy false a b).Capacity = a.Capacity ∧
    Vector.opAssignCopy true a a = a := by
  have he : (a.assignCopyBody b).elems = b.elems := by
    unfold Vector.assignCopyBody
    rw [if_pos h]
    split
    · next hab =>
      show b.elems.take a.Size
          ++ (b.elems.drop a.Size).take (b.Size - a.Size) = b.elems
      rw [List.take_of_length_le
        (show (List.drop a.Size b.elems).length ≤ b.Size - a.Size by
          rw [List.length_drop]
          have hb : b.Size = b.elems.length := rfl
          have ha : a.Size = a.elems.length := rfl
          omega)]
      exact List.take_append_drop _ _
    · show b.elems.take b.Size = b.elems
      exact List.take_length b.elems
  have hc : (a.assignCopyBody b).cap = a.cap := by
    unfold Vector.assignCopyBody
    rw [if_pos h]
    split <;> rfl
  refine ⟨?_, he, hc, rfl⟩
  show (a.assignCopyBody b).elems.length = b.elems.length
  rw [he]

/-- Witness for C4: copy-assign `[9, 8]` into `[1, 2, 3, 4, 5]` with
capacity 8 — length 2, elements copied, capacity still 8. -/
theorem C4_witness :
    (⟨[9, 8], 5⟩ : Vector Nat).Size ≤ (⟨[1, 2, 3, 4, 5], 8⟩ : Vector Nat).Capacity ∧
    (Vector.opAssignCopy false (⟨[1, 2, 3, 4, 5], 8⟩ : Vector Nat) ⟨[9, 8], 5⟩).Size
      = (⟨[9, 8], 5⟩ : Vector Nat).Size ∧
    (Vector.opAssignCopy false (⟨[1, 2, 3, 4, 5], 8⟩ : Vector Nat) ⟨[9, 8], 5⟩).elems
      = (⟨[9, 8], 5⟩ : Vector Nat).elems ∧
    (Vector.opAssignCopy false (⟨[1, 2, 3, 4, 5], 8⟩ : Vector Nat) ⟨[9, 8], 5⟩).Capacity
      = (⟨[1, 2, 3, 4, 5], 8⟩ : Vector Nat).Capacity ∧
    Vector.opAssignCopy true (⟨[1, 2, 3, 4, 5], 8⟩ : Vector Nat) ⟨[1, 2, 3, 4, 5], 8⟩
      = ⟨[1, 2, 3, 4, 5], 8⟩ :=
  ⟨by decide,
   (C4_copy_assignment_fits ⟨[1, 2, 3, 4, 5], 8⟩ ⟨[9, 8], 5⟩ (by decide)).1,
   (C4_copy_assignment_fits ⟨[1, 2, 3, 4, 5], 8⟩ ⟨[9, 8], 5⟩ (by decide)).2.1,
   (C4_copy_assignment_fits ⟨[1, 2, 3, 4, 5], 8⟩ ⟨[9, 8], 5⟩ (by decide)).2.2.1,
   (C4_copy_assignment_fits ⟨[1, 2, 3, 4, 5], 8⟩ ⟨[9, 8], 5⟩ (by decide)).2.2.2⟩

/-- C5: `Resize(n)` shrinks by destroying the tail (elements `[0, n)`
kept, length `n`), grows by default-constructing `[old_length, n)` after
reserving `max(2 * capacity, n)` when `n` exceeds the capacity, and is
the identity at `n = length`. -/
theorem C5_resize_spec {T : Type} [Inhabited T] (v : Vector T) (n : Nat)
    (hinv : v.SizeLeCap) :
    (n < v.Size → (v.Resize n).Size = n ∧
      (∀ j, j < n → (v.Resize n).elems[j]? = v.elems[j]?)) ∧
    (v.Size < n → (v.Resize n).Size = n ∧
      (∀ j, j < v.Size → (v.Resize n).elems[j]? = v.elems[j]?) ∧
      (∀ j, v.Size ≤ j → j < n → (v.Resize n).elems[j]? = some default) ∧
      (v.Capacity < n → (v.Resize n).Capacity = max (2 * v.Capacity) n)) ∧
    v.Resize v.Size = v := by
  have hsz : v.Size = v.elems.length := rfl
  refine ⟨?_, ?_, ?_⟩
  · intro hn
    rw [resize_shrink v n hn]
    constructor
    · show (v.elems.take n).length = n
      exact take_len v.elems n (by omega)
    · intro j hj
      show (v.elems.take n)[j]? = v.elems[j]?
      rw [List.getElem?_take, if_pos hj]
  · intro hn
    have hn2 : ¬ n < v.Size := by omega
    have he : (v.Resize n).elems
        = v.elems ++ List.replicate (n - v.Size) default := by
      by_cases hc : v.Capacity < n
      · rw [resize_grow v n hn2 hc]
      · rw [resize_grow_within v n hn2 hc]
    refine ⟨?_, ?_, ?_, ?_⟩
    · show (v.Resize n).elems.length = n
      rw [he]
      simp only [List.length_append, List.length_replicate]
      omega
    · intro j hj
      rw [he]
      exact append_any_get_lt v.elems _ j (by omega)
    · intro j hsj hjn
      rw [he, List.getElem?_append,
        if_neg (show ¬ j < v.elems.length by omega),
        List.getElem?_replicate,
        if_pos (show j - v.elems.length < n - v.Size by omega)]
    · intro hc
      rw [resize_grow v n hn2 hc]
      show max (v.Capacity * 2) n = max (2 * v.Capacity) n
      omega
  · have hn2 : ¬ v.Size < v.Size := Nat.lt_irrefl _
    have hc : ¬ v.Capacity < v.Size := by
      unfold Vector.SizeLeCap at hinv
      omega
    rw [resize_grow_within v v.Size hn2 hc, Nat.sub_self]
    simp

/-- Witness for C5: shrink `[1, 2, 3]` to 2, grow `[1, 2]` (capacity 2)
to 5 — appended zeros and capacity `max(4, 5) = 5` — and resize to the
current length. -/
theorem C5_witness :
    ((2 : Nat) < (⟨[1, 2, 3], 3⟩ : Vector Nat).Size ∧
      ((⟨[1, 2, 3], 3⟩ : Vector Nat).Resize 2).Size = 2) ∧
    ((⟨[1, 2], 2⟩ : Vector Nat).Size < 5 ∧
      ((⟨[1, 2], 2⟩ : Vector Nat).Resize 5).Size = 5 ∧
      ((⟨[1, 2], 2⟩ : Vector Nat).Resize 5).elems[4]? = some default ∧
      ((⟨[1, 2], 2⟩ : Vector Nat).Resize 5).Capacity
        = max (2 * (⟨[1, 2], 2⟩ : Vector Nat).Capacity) 5) ∧
    (⟨[7], 4⟩ : Vector Nat).Resize (⟨[7], 4⟩ : Vector Nat).Size = ⟨[7], 4⟩ :=
  ⟨⟨by decide, ((C5_resize_spec ⟨[1, 2, 3], 3⟩ 2 (by decide)).1 (by decide)).1⟩,
   ⟨by decide,
    ((C5_resize_spec ⟨[1, 2], 2⟩ 5 (by decide)).2.1 (by decide)).1,
    ((C5_resize_spec ⟨[1, 2], 2⟩ 5 (by decide)).2.1 (by decide)).2.2.1 4 (by decide) (by decide),
    ((C5_resize_spec ⟨[1, 2], 2⟩ 5 (by decide)).2.1 (by decide)).2.2.2 (by decide)⟩,
   (C5_resize_spec ⟨[7], 4⟩ 1 (by decide)).2.2⟩

/-- C6: erasing the live element at offset `i` shortens the vector by
one, keeps `[0, i)`, shifts the old `(i, n)` down to `[i, n-1)`, and
never reallocates (capacity unchanged). -/
theorem C6_erase_preserves_order {T : Type} (v : Vector T) (i : Nat)
    (hi : i < v.Size) :
    (v.Erase i).1.Size = v.Size - 1 ∧
    (∀ j, j < i → (v.Erase i).1.elems[j]? = v.elems[j]?) ∧
    (∀ j, i ≤ j → j < v.Size - 1 → (v.Erase i).1.elems[j]? = v.elems[j + 1]?) ∧
    (v.Erase i).1.Capacity = v.Capacity := by
  rw [erase_fst v i hi]
  refine ⟨?_, ?_, ?_, rfl⟩
  · show (v.elems.take i ++ v.elems.drop (i + 1)).length = v.Size - 1
    exact del_length v.elems i hi
  · intro j hj
    exact del_get_lt v.elems i j hj (Nat.le_of_lt hi)
  · intro j hij hj
    exact del_get_ge v.elems i j hij hj

/-- Witness for C6: erase offset 1 of `[1, 2, 3]` with capacity 4. -/
theorem C6_witness :
    (1 : Nat) < (⟨[1, 2, 3], 4⟩ : Vector Nat).Size ∧
    ((⟨[1, 2, 3], 4⟩ : Vector Nat).Erase 1).1.Size
      = (⟨[1, 2, 3], 4⟩ : Vector Nat).Size - 1 ∧
    ((⟨[1, 2, 3], 4⟩ : Vector Nat).Erase 1).1.elems[0]?
      = (⟨[1, 2, 3], 4⟩ : Vector Nat).elems[0]? ∧
    ((⟨[1, 2, 3], 4⟩ : Vector Nat).Erase 1).1.elems[1]?
      = (⟨[1, 2, 3], 4⟩ : Vector Nat).elems[2]? ∧
    ((⟨[1, 2, 3], 4⟩ : Vector Nat).Erase 1).1.Capacity
      = (⟨[1, 2, 3], 4⟩ : Vector Nat).Capacity :=
  ⟨by decide,
   (C6_erase_preserves_order ⟨[1, 2, 3], 4⟩ 1 (by decide)).1,
   (C6_erase_preserves_order ⟨[1, 2, 3], 4⟩ 1 (by decide)).2.1 0 (by decide),
   (C6_erase_preserves_order ⟨[1, 2, 3], 4⟩ 1 (by decide)).2.2.1 1 (by decide) (by decide),
   (C6_erase_preserves_order ⟨[1, 2, 3], 4⟩ 1 (by decide)).2.2.2⟩

/-- C7: `Reserve(n)` is the identity when `n <= capacity`; otherwise it
sets the capacity to exactly `n` and keeps the length and all elements. -/
theorem C7_reserve_spec {T : Type} (v : Vector T) (n : Nat) :
    (n ≤ v.Capacity → v.Reserve n = v) ∧
    (v.Capacity < n → (v.Reserve n).Capacity = n ∧
      (v.Reserve n).Size = v.Size ∧ (v.Reserve n).elems = v.elems) := by
  constructor
  · intro h
    unfold Vector.Reserve
    rw [if_pos h]
  · intro h
    unfold Vector.Reserve
    rw [if_neg (show ¬ n ≤ v.Capacity by omega)]
    exact ⟨rfl, rfl, rfl⟩

/-- Witness for C7: a no-op reservation and a growing one on `[1, 2]`
with capacity 4. -/
theorem C7_witness :
    ((3 : Nat) ≤ (⟨[1, 2], 4⟩ : Vector Nat).Capacity ∧
      (⟨[1, 2], 4⟩ : Vector Nat).Reserve 3 = ⟨[1, 2], 4⟩) ∧
    ((⟨[1, 2], 4⟩ : Vector Nat).Capacity < 9 ∧
      ((⟨[1, 2], 4⟩ : Vector Nat).Reserve 9).Capacity = 9 ∧
      ((⟨[1, 2], 4⟩ : Vector Nat).Reserve 9).Size = (⟨[1, 2], 4⟩ : Vector Nat).Size ∧
      ((⟨[1, 2], 4⟩ : Vector Nat).Reserve 9).elems = (⟨[1, 2], 4⟩ : Vector Nat).elems) :=
  ⟨⟨by decide, (C7_reserve_spec ⟨[1, 2], 4⟩ 3).1 (by decide)⟩,
   ⟨by decide, (C7_reserve_spec ⟨[1, 2], 4⟩ 9).2 (by decide)⟩⟩

/-- C8: `PopBack` is total: on a non-empty vector it drops exactly the
last live element (prefix `[0, n-1)` and capacity unchanged), and on an
empty vector it is a no-op. -/
theorem C8_popBack_spec {T : Type} (v : Vector T) :
    (v.Size = 0 → v.PopBack = v) ∧
    (0 < v.Size → v.PopBack.Size = v.Size - 1 ∧
      (∀ j, j < v.Size - 1 → v.PopBack.elems[j]? = v.elems[j]?) ∧
      v.PopBack.Capacity = v.Capacity) := by
  constructor
  · intro h
    unfold Vector.PopBack
    rw [if_neg (show ¬ v.Size > 0 by omega)]
  · intro h
    have hp : v.PopBack = ⟨v.elems.dropLast, v.cap⟩ := by
      unfold Vector.PopBack
      rw [if_pos h]
    rw [hp]
    refine ⟨?_, ?_, rfl⟩
    · show v.elems.dropLast.length = v.Size - 1
      rw [List.length_dropLast]
      rfl
    · intro j hj
      show v.elems.dropLast[j]? = v.elems[j]?
      rw [List.dropLast_eq_take, List.getElem?_take,
        if_pos (show j < v.elems.length - 1 from hj)]

/-- Witness for C8 on the empty vector (no-op) and on `[1, 2, 3]`. -/
theorem C8_witness :
    ((⟨[], 2⟩ : Vector Nat).Size = 0 ∧ (⟨[], 2⟩ : Vector Nat).PopBack = ⟨[], 2⟩) ∧
    (0 < (⟨[1, 2, 3], 4⟩ : Vector Nat).Size ∧
      (⟨[1, 2, 3], 4⟩ : Vector Nat).PopBack.Size
        = (⟨[1, 2, 3], 4⟩ : Vector Nat).Size - 1 ∧
      (⟨[1, 2, 3], 4⟩ : Vector Nat).PopBack.elems[1]?
        = (⟨[1, 2, 3], 4⟩ : Vector Nat).elems[1]? ∧
      (⟨[1, 2, 3], 4⟩ : Vector Nat).PopBack.Capacity
        = (⟨[1, 2, 3], 4⟩ : Vector Nat).Capacity) :=
  ⟨⟨by decide, (C8_popBack_spec ⟨[], 2⟩).1 (by decide)⟩,
   ⟨by decide,
    ((C8_popBack_spec ⟨[1, 2, 3], 4⟩).2 (by decide)).1,
    ((C8_popBack_spec ⟨[1, 2, 3], 4⟩).2 (by decide)).2.1 1 (by decide),
    ((C8_popBack_spec ⟨[1, 2, 3], 4⟩).2 (by decide)).2.2⟩⟩

/-- C9: `Erase` returns `begin() + shift` computed after the shift, i.e.
the offset `i` in the resulting vector: a valid position (at most the
new length), holding the element that followed the erased one when one
exists, and equal to the new `end()` offset when the last element was
erased. -/
theorem C9_erase_return_position {T : Type} (v : Vector T) (i : Nat)
    (hi : i < v.Size) :
    (v.Erase i).2 = i ∧
    (v.Erase i).2 ≤ (v.Erase i).1.Size ∧
    (i < v.Size - 1 → (v.Erase i).1.elems[(v.Erase i).2]? = v.elems[i + 1]?) ∧
    (i = v.Size - 1 → (v.Erase i).2 = (v.Erase i).1.Size) := by
  have hlen : i < v.elems.length := hi
  rw [erase_fst v i hi]
  refine ⟨rfl, ?_, ?_, ?_⟩
  · show i ≤ (v.elems.take i ++ v.elems.drop (i + 1)).length
    rw [del_length v.elems i hi]
    omega
  · intro hlt
    show (v.elems.take i ++ v.elems.drop (i + 1))[i]? = v.elems[i + 1]?
    exact del_get_ge v.elems i i (Nat.le_refl i) hlt
  · intro heq
    show i = (v.elems.take i ++ v.elems.drop (i + 1)).length
    rw [del_length v.elems i hi]
    exact heq

/-- Witness for C9: erase in the middle of `[1, 2, 3]` (the returned
offset holds the old element 3) and erase of the last element of
`[1, 2]` (the returned offset equals the new end). -/
theorem C9_witness :
    ((1 : Nat) < (⟨[1, 2, 3], 4⟩ : Vector Nat).Size ∧
      ((⟨[1, 2, 3], 4⟩ : Vector Nat).Erase 1).2 = 1 ∧
      ((⟨[1, 2, 3], 4⟩ : Vector Nat).Erase 1).1.elems[((⟨[1, 2, 3], 4⟩ : Vector Nat).Erase 1).2]?
        = (⟨[1, 2, 3], 4⟩ : Vector Nat).elems[2]?) ∧
    ((⟨[1, 2], 4⟩ : Vector Nat).Erase 1).2 = ((⟨[1, 2], 4⟩ : Vector Nat).Erase 1).1.Size :=
  ⟨⟨by decide,
    (C9_erase_return_position ⟨[1, 2, 3], 4⟩ 1 (by decide)).1,
    (C9_erase_return_position ⟨[1, 2, 3], 4⟩ 1 (by decide)).2.2.1 (by decide)⟩,
   (C9_erase_return_position ⟨[1, 2], 4⟩ 1 (by decide)).2.2.2 (by decide)⟩

/-- C10: the address-plus-offset operator of the raw block asserts only
`offset <= capacity` — so the one-past-end address is accepted for every
block — while the index operator asserts the strict bound
`index < capacity`. -/
theorem C10_rawmemory_offset_asserts (m : RawMemory) (off : Nat) :
    (off ≤ m.capacity → m.opAdd off = some off) ∧
    (m.opAdd m.capacity).isSome = true ∧
    ((m.opIndex off).isSome = true ↔ off < m.capacity) := by
  refine ⟨?_, ?_, ?_⟩
  · intro h
    unfold RawMemory.opAdd
    rw [if_pos h]
  · unfold RawMemory.opAdd
    rw [if_pos (Nat.le_refl _)]
    rfl
  · unfold RawMemory.opIndex
    constructor
    · intro h
      by_cases hc : off < m.capacity
      · exact hc
      · rw [if_neg hc] at h
        simp at h
    · intro h
      rw [if_pos h]
      rfl

/-- Witness for C10 on a block of capacity 5 at the boundary offset 5:
the plus operator accepts it, the index operator rejects it. -/
theorem C10_witness :
    ((5 : Nat) ≤ (⟨5⟩ : RawMemory).capacity ∧
      RawMemory.opAdd ⟨5⟩ 5 = some 5) ∧
    (RawMemory.opAdd ⟨5⟩ (⟨5⟩ : RawMemory).capacity).isSome = true ∧
    ¬ ((RawMemory.opIndex ⟨5⟩ 5).isSome = true) :=
  ⟨⟨by decide, (C10_rawmemory_offset_asserts ⟨5⟩ 5).1 (by decide)⟩,
   (C10_rawmemory_offset_asserts ⟨5⟩ 5).2.1,
   fun h =>
     absurd ((C10_rawmemory_offset_asserts ⟨5⟩ 5).2.2.mp h) (by decide)⟩

end AdvancedVector
